import Mathlib

/-!
Verification development for the server-side video export pipeline
(`src/server/index.js` and the client editor in `src/src/`).

The embedding models:
* the overlay filter compiler `createTextFilter` (index.js lines 54-78),
  producing the exact filter-graph string as a `List Char`;
* the single-video job runner (lines 99-195) as a function from abstract
  probe/encode outcomes to a terminal state and a file-system summary;
* the batch orchestrator (lines 198-312) over per-item outcomes;
* the artifact lifecycle sweep `cleanupOldFiles` (lines 337-366);
* the duration-limit handling (lines 105-139) and the client-side overlay
  clamping (`src/src/App.tsx` lines 105-119).

Machine numbers are modelled as `ℚ`; `Math.round` is Mathlib's `round`
(`⌊x + 1/2⌋`, matching JavaScript rounding toward positive infinity on ties).
-/

/-- The single-quote character, written numerically. -/
def qc : Char := Char.ofNat 39

/-- The backslash character, written numerically. -/
def bs : Char := Char.ofNat 92

/-- Decimal digit character; the clamp to 9 is the identity on all inputs
actually produced (digits below 10). -/
def digitChar (n : Nat) : Char := Char.ofNat (48 + min n 9)

/-- Render a natural number in decimal, most significant digit first.
`fuel` bounds the recursion; `renderNat` supplies enough fuel. -/
def renderNatAux : Nat → Nat → List Char → List Char
  | 0, _, acc => acc
  | f + 1, n, acc =>
    if n < 10 then digitChar n :: acc
    else renderNatAux f (n / 10) (digitChar (n % 10) :: acc)

/-- Decimal rendering of a natural number, as JavaScript prints it. -/
def renderNat (n : Nat) : List Char := renderNatAux (n + 1) n []

/-- Decimal rendering of an integer, as JavaScript prints it. -/
def renderInt (i : Int) : List Char :=
  if i < 0 then '-' :: renderNat i.natAbs else renderNat i.toNat

/-- Decimal digits of the fractional part `q` (with `0 ≤ q < 1`), up to
`fuel` places; exact whenever the denominator divides a power of ten, which
matches how JavaScript prints such values. -/
def fracRender : Nat → ℚ → List Char
  | 0, _ => []
  | f + 1, q =>
    if q = 0 then []
    else digitChar (Int.toNat ⌊q * 10⌋) :: fracRender f (q * 10 - ⌊q * 10⌋)

/-- Decimal rendering of a nonnegative rational. -/
def renderQPos (q : ℚ) : List Char :=
  if q - ⌊q⌋ = 0 then renderNat ⌊q⌋.toNat
  else renderNat ⌊q⌋.toNat ++ '.' :: fracRender 20 (q - ⌊q⌋)

/-- Decimal rendering of a rational, as JavaScript prints (terminating)
numbers. -/
def renderQ (q : ℚ) : List Char :=
  if q < 0 then '-' :: renderQPos (-q) else renderQPos q

/-- A text overlay, with the fields `createTextFilter` consumes
(`src/unnamed/part_003` declares the full record; the remaining fields do
not reach the compiler). -/
structure TextOverlay where
  text : List Char
  x : ℚ
  y : ℚ
  fontSize : ℚ
  color : List Char
  outlineWidth : ℚ
  outlineColor : List Char
  fontFamily : List Char
  startTime : ℚ
  endTime : ℚ
deriving DecidableEq

/-- Replace every occurrence of `target` by `repl`, as one JavaScript
global-regex `String.replace`. -/
def replaceChar (target : Char) (repl : List Char) : List Char → List Char
  | [] => []
  | c :: cs => (if c = target then repl else [c]) ++ replaceChar target repl cs

/-- index.js line 60: `text.replace(/'/g, "\\'").replace(/:/g, "\\:")` —
first every quote, then every colon, is prefixed with a backslash. -/
def escapeText (s : List Char) : List Char :=
  replaceChar ':' [bs, ':'] (replaceChar qc [bs, qc] s)

/-- Per-character view of the escaping performed by `escapeText`. -/
def escapeChar (c : Char) : List Char :=
  if c = qc then [bs, qc] else if c = ':' then [bs, ':'] else [c]

/-- Character-list form of `escapeChar` mapped over a text. -/
def escapeAll : List Char → List Char
  | [] => []
  | c :: cs => escapeChar c ++ escapeAll cs

/-- Decoder of the escaping convention: a backslash makes the following
character literal. -/
def unescape : List Char → List Char
  | [] => []
  | c :: cs =>
    if c = bs then
      match cs with
      | [] => []
      | d :: ds => d :: unescape ds
    else c :: unescape cs

/-- index.js line 62: the leading `drawtext=text='…'` portion of the filter,
with the escaped text between single quotes. -/
def textPart (ov : TextOverlay) : List Char :=
  "drawtext=text=".data ++ [qc] ++ escapeText ov.text ++ [qc]

/-- index.js lines 55-57 and 62: pixel position, scaled font size and colour
parameters. -/
def geomPart (ov : TextOverlay) (videoWidth videoHeight : ℚ) : List Char :=
  ":x=".data ++ renderInt (round (ov.x / 100 * videoWidth)) ++
  ":y=".data ++ renderInt (round (ov.y / 100 * videoHeight)) ++
  ":fontsize=".data ++ renderInt (round (ov.fontSize * (videoWidth / 400))) ++
  ":fontcolor=".data ++ ov.color

/-- index.js lines 65-67: border parameters, only when `outlineWidth > 0`. -/
def outlinePart (ov : TextOverlay) : List Char :=
  if 0 < ov.outlineWidth then
    ":borderw=".data ++ renderQ ov.outlineWidth ++ ":bordercolor=".data ++ ov.outlineColor
  else []

/-- index.js lines 70-72: a font file path is appended for every truthy
family other than the literal string `Inter`; the path is built by direct
interpolation, with no lookup of known families. -/
def fontFilePart (ov : TextOverlay) : List Char :=
  if ov.fontFamily ≠ [] ∧ ov.fontFamily ≠ "Inter".data then
    ":fontfile=/System/Library/Fonts/".data ++ ov.fontFamily ++ ".ttf".data
  else []

/-- index.js line 75: the `enable` window, rendering the overlay's own
`startTime` and `endTime` unchanged. -/
def enablePart (ov : TextOverlay) : List Char :=
  ":enable=".data ++ [qc] ++ "between(t,".data ++ renderQ ov.startTime ++
  [','] ++ renderQ ov.endTime ++ ")".data ++ [qc]

/-- index.js lines 54-78, `createTextFilter`: one draw-text primitive for one
overlay, assembled exactly as the source concatenates it. -/
def createTextFilter (ov : TextOverlay) (videoWidth videoHeight : ℚ) : List Char :=
  textPart ov ++ geomPart ov videoWidth videoHeight ++ outlinePart ov ++
  fontFilePart ov ++ enablePart ov

/-- JavaScript `Array.prototype.join` with a one-character separator. -/
def joinSep (sep : Char) : List (List Char) → List Char
  | [] => []
  | [f] => f
  | f :: fs => f ++ sep :: joinSep sep fs

/-- index.js lines 143-148: the per-overlay filters joined with commas. -/
def joinFilters (ovs : List TextOverlay) (videoWidth videoHeight : ℚ) : List Char :=
  joinSep ',' (ovs.map fun ov => createTextFilter ov videoWidth videoHeight)

/-! ## A model of the filter-graph grammar

The compiled expression is consumed by the encoder's filter-graph parser.
We model the tokenization the compiler's escaping convention targets: a
backslash makes the next character literal, a single quote toggles a quoted
section, and a separator character (comma between filters, colon between
parameters) splits only when it is neither escaped nor inside a quoted
section.  `splitG` performs one such split, keeping all characters. -/

/-- Prepend a character to the first segment of a split. -/
def consCur (c : Char) : List (List Char) → List (List Char)
  | [] => [[c]]
  | s :: rest => (c :: s) :: rest

/-- Prepend a chunk to the first segment of a split. -/
def consAll (s : List Char) : List (List Char) → List (List Char)
  | [] => [s]
  | h :: rest => (s ++ h) :: rest

/-- Split on `sep`, honouring backslash escapes and quoted sections.
`inQ` records whether scanning is inside a quoted section. -/
def splitG (sep : Char) : List Char → Bool → List (List Char)
  | [], _ => [[]]
  | c :: cs, inQ =>
    if c = bs then
      match cs with
      | [] => [[bs]]
      | d :: ds => consCur bs (consCur d (splitG sep ds inQ))
    else if c = qc then consCur qc (splitG sep cs (!inQ))
    else if c = sep ∧ inQ = false then [] :: splitG sep cs false
    else consCur c (splitG sep cs inQ)

/-- Scan a chunk: returns the final quote state when the chunk contains no
splitting occurrence of `sep` and no dangling escape, and `none` otherwise. -/
def chunkOK (sep : Char) : List Char → Bool → Option Bool
  | [], b => some b
  | c :: cs, b =>
    if c = bs then
      match cs with
      | [] => none
      | _ :: ds => chunkOK sep ds b
    else if c = qc then chunkOK sep cs (!b)
    else if c = sep ∧ b = false then none
    else chunkOK sep cs b

/-- Naive comma split, ignoring escapes and quotes: the segments a consumer
sees if it treats every comma as a filter separator. -/
def naiveSplitComma : List Char → List (List Char)
  | [] => [[]]
  | c :: cs => if c = ',' then [] :: naiveSplitComma cs else consCur c (naiveSplitComma cs)

/-! ## Duration handling -/

/-- index.js line 107: `maxDuration ? parseFloat(maxDuration) : null`, then
line 137: `if (durationLimit && durationLimit > 0) command.duration(...)`.
The value handed to the encoder is the raw parsed cap whenever it is
positive, and nothing otherwise. -/
def durationOption (md : Option ℚ) : Option ℚ :=
  match md with
  | none => none
  | some d => if 0 < d then some d else none

/-- The encoder invocation assembled by the handler: an optional duration
cap (line 138) and an optional filter graph (lines 142-149). -/
structure EncodeCommand where
  durationCap : Option ℚ
  filterGraph : Option (List Char)
deriving DecidableEq

/-- index.js lines 126-150: the command built for one job. -/
def buildCommand (ovs : List TextOverlay) (videoWidth videoHeight : ℚ)
    (md : Option ℚ) : EncodeCommand :=
  { durationCap := durationOption md,
    filterGraph :=
      if ovs.isEmpty then none else some (joinFilters ovs videoWidth videoHeight) }

/-- Modelled from the spec: `effectiveDuration = maxDuration is set and
< naturalDuration ? maxDuration : naturalDuration` (§4.2); the server never
computes this value. -/
def effectiveDurationSpec (natural : ℚ) (md : Option ℚ) : ℚ :=
  match md with
  | none => natural
  | some m => if m < natural then m else natural

/-- Modelled from the spec: the external encoder treats the duration option
as a hard output cap, so the rendered length is the natural length truncated
at the cap (§4.2). -/
def renderedDuration (natural : ℚ) (cap : Option ℚ) : ℚ :=
  match cap with
  | none => natural
  | some d => min natural d

/-- `src/src/App.tsx` lines 112-116 (`handleMaxDurationChange`): when the
duration limit changes in the editor, each overlay's window is clamped
against the new limit `d` with ε = 0.5. -/
def clampOverlayTimes (d : ℚ) (ov : TextOverlay) : TextOverlay :=
  { ov with startTime := min ov.startTime (d - 1/2), endTime := min ov.endTime d }

/-! ## Single-video job runner (index.js lines 99-195)

The handler is embedded as a function of the two external outcomes it
reacts to.  `JobFS` summarises the side effects on the shared storage
areas: whether the input and output artifacts exist and how many delete
operations hit the input artifact. -/

inductive ProbeOutcome | ok | fail
deriving DecidableEq

/-- Outcome of the encoder run: success, failure after part of the output
file was written, or failure before any output appeared. -/
inductive EncodeOutcome | success | failPartial | failClean
deriving DecidableEq

inductive JobState | Completed | Failed
deriving DecidableEq

structure JobFS where
  inputPresent : Bool
  outputPresent : Bool
  inputDeletes : Nat
deriving DecidableEq

def initJobFS : JobFS := { inputPresent := true, outputPresent := false, inputDeletes := 0 }

/-- index.js lines 174 and 186-188: `fs.remove` on the uploaded input. -/
def removeInput (s : JobFS) : JobFS :=
  { s with inputPresent := false, inputDeletes := s.inputDeletes + 1 }

/-- Effect of the encoder run on the output artifact: the encoder writes the
output progressively, so both success and a mid-encode failure leave a file
at the output path. -/
def encodeEffect : EncodeOutcome → JobFS → JobFS
  | .success, s => { s with outputPresent := true }
  | .failPartial, s => { s with outputPresent := true }
  | .failClean, s => s

/-- index.js lines 99-195: probe, then encode, then delete the input
(line 174); any thrown error reaches the catch block, which deletes only
the input (lines 186-188) and reports failure. -/
def processVideoJob (p : ProbeOutcome) (e : EncodeOutcome) : JobState × JobFS :=
  match p with
  | .fail => (.Failed, removeInput initJobFS)
  | .ok =>
    match e with
    | .success => (.Completed, removeInput (encodeEffect .success initJobFS))
    | .failPartial => (.Failed, removeInput (encodeEffect .failPartial initJobFS))
    | .failClean => (.Failed, removeInput (encodeEffect .failClean initJobFS))

/-! ## Batch orchestrator (index.js lines 198-312) -/

/-- The metadata submitted for one batch item (`videosData[i]`). -/
structure VideoMeta where
  name : List Char
deriving DecidableEq

/-- Abstract outcome of processing one uploaded file (probe plus encode). -/
inductive ItemOutcome | ok | fail
deriving DecidableEq

/-- One entry of the `results` or `errors` array. -/
structure ItemResult where
  originalName : List Char
  success : Bool
deriving DecidableEq

/-- The three shapes of reply the batch endpoint can produce: 400 for an
empty upload (line 201), 500 from the outer catch (lines 297-311), or the
aggregate JSON (lines 289-295). -/
inductive BatchReply where
  | badRequest
  | serverError
  | ok (processed total : Nat) (results errs : List ItemResult)
deriving DecidableEq

/-- index.js lines 211-287: the per-item loop.  Per item, success appends to
`results` and failure appends to `errors` (both tagged with
`videoData.name`); when `videos[i]` is missing, reading `videoData.name`
throws inside the item, the inner catch throws again at line 278, and the
exception escapes to the outer catch. -/
def batchLoop : List ItemOutcome → List VideoMeta →
    List ItemResult → List ItemResult →
    Except Unit (List ItemResult × List ItemResult)
  | [], _, rs, es => .ok (rs, es)
  | _ :: _, [], _, _ => .error ()
  | o :: os, v :: vs, rs, es =>
    match o with
    | .ok => batchLoop os vs (rs ++ [{ originalName := v.name, success := true }]) es
    | .fail => batchLoop os vs rs (es ++ [{ originalName := v.name, success := false }])

/-- index.js lines 198-312: the whole endpoint, over the parsed metadata
list and the abstract per-file outcomes. -/
def processBatch (os : List ItemOutcome) (vs : List VideoMeta) : BatchReply :=
  if os.isEmpty then .badRequest
  else
    match batchLoop os vs [] [] with
    | .error _ => .serverError
    | .ok (rs, es) => .ok rs.length os.length rs es

/-- The successes and errors the loop accumulates, without accumulators:
used to state what `batchLoop` computes. -/
def batchSplit : List ItemOutcome → List VideoMeta → List ItemResult × List ItemResult
  | [], _ => ([], [])
  | _ :: _, [] => ([], [])
  | o :: os, v :: vs =>
    match o with
    | .ok => ({ originalName := v.name, success := true } :: (batchSplit os vs).1,
              (batchSplit os vs).2)
    | .fail => ((batchSplit os vs).1,
                { originalName := v.name, success := false } :: (batchSplit os vs).2)

/-! ## Artifact lifecycle manager (index.js lines 337-366) -/

/-- A file in one storage area, identified by name and last-modified time
(milliseconds). -/
structure Artifact where
  name : List Char
  mtime : ℚ
deriving DecidableEq

/-- The two storage areas the sweep visits. -/
structure StorageState where
  output : List Artifact
  uploads : List Artifact
deriving DecidableEq

/-- index.js line 340: `24 * 60 * 60 * 1000`. -/
def maxAgeMs : ℚ := 86400000

/-- index.js lines 343-351 / 354-362: keep a file unless
`now - mtime > maxAge`. -/
def sweepArea (now : ℚ) (files : List Artifact) : List Artifact :=
  files.filter fun a => ! decide (now - a.mtime > maxAgeMs)

/-- index.js lines 337-366, `cleanupOldFiles`: one pass over both areas. -/
def cleanupOldFiles (now : ℚ) (s : StorageState) : StorageState :=
  { output := sweepArea now s.output, uploads := sweepArea now s.uploads }

/-! ## Grammar lemmas -/

theorem qc_ne_bs : qc ≠ bs := by decide

theorem comma_ne_bs : ',' ≠ bs := by decide

theorem comma_ne_qc : ',' ≠ qc := by decide

theorem colon_ne_bs : ':' ≠ bs := by decide

theorem colon_ne_qc : ':' ≠ qc := by decide

theorem consCur_ne_nil (c : Char) (l : List (List Char)) : consCur c l ≠ [] := by
  cases l <;> simp [consCur]

theorem consCur_eq_consAll (c : Char) (l : List (List Char)) :
    consCur c l = consAll [c] l := by
  cases l <;> simp [consCur, consAll]

theorem consAll_append (a c : List Char) (l : List (List Char)) :
    consAll (a ++ c) l = consAll a (consAll c l) := by
  cases l <;> simp [consAll]

theorem consAll_nil_left (l : List (List Char)) (h : l ≠ []) : consAll [] l = l := by
  cases l with
  | nil => exact absurd rfl h
  | cons x xs => simp [consAll]

theorem splitG_nil (sep : Char) (b : Bool) : splitG sep [] b = [[]] := rfl

theorem splitG_bs_nil (sep : Char) (b : Bool) : splitG sep [bs] b = [[bs]] := rfl

theorem splitG_bs_cons (sep d : Char) (ds : List Char) (b : Bool) :
    splitG sep (bs :: d :: ds) b = consCur bs (consCur d (splitG sep ds b)) := rfl

theorem splitG_qc (sep : Char) (cs : List Char) (b : Bool) :
    splitG sep (qc :: cs) b = consCur qc (splitG sep cs (!b)) := by
  unfold splitG
  rw [if_neg qc_ne_bs, if_pos rfl]
  rw [splitG.eq_def]

theorem splitG_sep_split (sep : Char) (cs : List Char)
    (hb : sep ≠ bs) (hq : sep ≠ qc) :
    splitG sep (sep :: cs) false = [] :: splitG sep cs false := by
  unfold splitG
  rw [if_neg hb, if_neg hq, if_pos ⟨rfl, rfl⟩]
  rw [splitG.eq_def]

theorem splitG_other (sep c : Char) (cs : List Char) (b : Bool)
    (hb : c ≠ bs) (hq : c ≠ qc) (hs : ¬(c = sep ∧ b = false)) :
    splitG sep (c :: cs) b = consCur c (splitG sep cs b) := by
  unfold splitG
  rw [if_neg hb, if_neg hq, if_neg hs]
  rw [splitG.eq_def]

theorem splitG_ne_nil (sep : Char) (s : List Char) (b : Bool) :
    splitG sep s b ≠ [] := by
  cases s with
  | nil => simp [splitG_nil]
  | cons c cs =>
    by_cases hb : c = bs
    · subst hb
      cases cs with
      | nil => simp [splitG_bs_nil]
      | cons d ds => rw [splitG_bs_cons]; exact consCur_ne_nil _ _
    · by_cases hq : c = qc
      · subst hq; rw [splitG_qc]; exact consCur_ne_nil _ _
      · by_cases hs : c = sep ∧ b = false
        · obtain ⟨h1, h2⟩ := hs
          subst h2
          rw [h1, splitG_sep_split sep cs (h1 ▸ hb) (h1 ▸ hq)]
          simp
        · rw [splitG_other sep c cs b hb hq hs]; exact consCur_ne_nil _ _

theorem chunkOK_nil (sep : Char) (b : Bool) : chunkOK sep [] b = some b := rfl

theorem chunkOK_bs_nil (sep : Char) (b : Bool) : chunkOK sep [bs] b = none := rfl

theorem chunkOK_bs_cons (sep d : Char) (ds : List Char) (b : Bool) :
    chunkOK sep (bs :: d :: ds) b = chunkOK sep ds b := rfl

theorem chunkOK_qc (sep : Char) (cs : List Char) (b : Bool) :
    chunkOK sep (qc :: cs) b = chunkOK sep cs (!b) := by
  unfold chunkOK
  rw [if_neg qc_ne_bs, if_pos rfl]
  rw [chunkOK.eq_def]

theorem chunkOK_other (sep c : Char) (cs : List Char) (b : Bool)
    (hb : c ≠ bs) (hq : c ≠ qc) (hs : ¬(c = sep ∧ b = false)) :
    chunkOK sep (c :: cs) b = chunkOK sep cs b := by
  unfold chunkOK
  rw [if_neg hb, if_neg hq, if_neg hs]
  rw [chunkOK.eq_def]

theorem chunkOK_sep_none (sep : Char) (cs : List Char)
    (hb : sep ≠ bs) (hq : sep ≠ qc) :
    chunkOK sep (sep :: cs) false = none := by
  unfold chunkOK
  rw [if_neg hb, if_neg hq, if_pos ⟨rfl, rfl⟩]

theorem chunkOK_append (sep : Char) :
    ∀ (s t : List Char) (b b' : Bool), chunkOK sep s b = some b' →
      chunkOK sep (s ++ t) b = chunkOK sep t b'
  | [], t, b, b', h => by
    rw [chunkOK_nil] at h
    injection h with h
    subst h
    rfl
  | c :: cs, t, b, b', h => by
    by_cases hb : c = bs
    · subst hb
      cases cs with
      | nil => rw [chunkOK_bs_nil] at h; exact absurd h (by simp)
      | cons d ds =>
        rw [chunkOK_bs_cons] at h
        rw [List.cons_append, List.cons_append, chunkOK_bs_cons]
        exact chunkOK_append sep ds t b b' h
    · by_cases hq : c = qc
      · subst hq
        rw [chunkOK_qc] at h
        rw [List.cons_append, chunkOK_qc]
        exact chunkOK_append sep cs t (!b) b' h
      · by_cases hs : c = sep ∧ b = false
        · obtain ⟨h1, h2⟩ := hs
          subst h2
          rw [h1, chunkOK_sep_none sep cs (h1 ▸ hb) (h1 ▸ hq)] at h
          exact absurd h (by simp)
        · rw [chunkOK_other sep c cs b hb hq hs] at h
          rw [List.cons_append, chunkOK_other sep c (cs ++ t) b hb hq hs]
          exact chunkOK_append sep cs t b b' h

theorem splitG_chunk (sep : Char) :
    ∀ (s t : List Char) (b b' : Bool), chunkOK sep s b = some b' →
      splitG sep (s ++ t) b = consAll s (splitG sep t b')
  | [], t, b, b', h => by
    rw [chunkOK_nil] at h
    injection h with h
    subst h
    rw [List.nil_append, consAll_nil_left _ (splitG_ne_nil sep t b)]
  | c :: cs, t, b, b', h => by
    by_cases hb : c = bs
    · subst hb
      cases cs with
      | nil => rw [chunkOK_bs_nil] at h; exact absurd h (by simp)
      | cons d ds =>
        rw [chunkOK_bs_cons] at h
        rw [List.cons_append, List.cons_append, splitG_bs_cons,
          splitG_chunk sep ds t b b' h, consCur_eq_consAll, consCur_eq_consAll,
          show (bs :: d :: ds : List Char) = [bs] ++ ([d] ++ ds) from rfl,
          consAll_append, consAll_append]
    · by_cases hq : c = qc
      · subst hq
        rw [chunkOK_qc] at h
        rw [List.cons_append, splitG_qc, splitG_chunk sep cs t (!b) b' h,
          consCur_eq_consAll,
          show (qc :: cs : List Char) = [qc] ++ cs from rfl, consAll_append]
      · by_cases hs : c = sep ∧ b = false
        · obtain ⟨h1, h2⟩ := hs
          subst h2
          rw [h1, chunkOK_sep_none sep cs (h1 ▸ hb) (h1 ▸ hq)] at h
          exact absurd h (by simp)
        · rw [chunkOK_other sep c cs b hb hq hs] at h
          rw [List.cons_append, splitG_other sep c (cs ++ t) b hb hq hs,
            splitG_chunk sep cs t b b' h, consCur_eq_consAll,
            show (c :: cs : List Char) = [c] ++ cs from rfl, consAll_append]

theorem splitG_chunk_whole (sep : Char) (s : List Char) (b b' : Bool)
    (h : chunkOK sep s b = some b') : splitG sep s b = [s] := by
  have h2 := splitG_chunk sep s [] b b' h
  rw [List.append_nil] at h2
  rw [h2, splitG_nil]
  simp [consAll]

theorem splitG_boundary (sep : Char) (hb : sep ≠ bs) (hq : sep ≠ qc)
    (s t : List Char) (h : chunkOK sep s false = some false) :
    splitG sep (s ++ sep :: t) false = s :: splitG sep t false := by
  rw [splitG_chunk sep s (sep :: t) false false h, splitG_sep_split sep t hb hq]
  simp [consAll]

theorem joinSep_cons₂ (sep : Char) (f g : List Char) (fs : List (List Char)) :
    joinSep sep (f :: g :: fs) = f ++ sep :: joinSep sep (g :: fs) := rfl

theorem splitG_joinSep (sep : Char) (hb : sep ≠ bs) (hq : sep ≠ qc) :
    ∀ fs : List (List Char), fs ≠ [] →
      (∀ f ∈ fs, chunkOK sep f false = some false) →
      splitG sep (joinSep sep fs) false = fs
  | [], hne, _ => absurd rfl hne
  | [f], _, hall => by
    rw [show joinSep sep [f] = f from rfl]
    exact splitG_chunk_whole sep f false false (hall f (by simp))
  | f :: g :: fs, _, hall => by
    rw [joinSep_cons₂,
      splitG_boundary sep hb hq f (joinSep sep (g :: fs)) (hall f (by simp)),
      splitG_joinSep sep hb hq (g :: fs) (by simp)
        (fun x hx => hall x (List.mem_cons_of_mem f hx))]

/-! ## Character-class and escaping lemmas -/

/-- Characters with no syntactic role in the modelled grammar at either
split level. -/
def plainChar (c : Char) : Prop := c ≠ bs ∧ c ≠ qc ∧ c ≠ ',' ∧ c ≠ ':'

instance (c : Char) : Decidable (plainChar c) := by
  unfold plainChar; infer_instance

theorem chunkOK_plain (sep : Char) :
    ∀ s : List Char, (∀ c ∈ s, c ≠ bs ∧ c ≠ qc ∧ c ≠ sep) →
      ∀ b, chunkOK sep s b = some b
  | [], _, b => chunkOK_nil sep b
  | c :: cs, h, b => by
    obtain ⟨hb, hq, hsep⟩ := h c (List.mem_cons_self c cs)
    rw [chunkOK_other sep c cs b hb hq (fun hcs => hsep hcs.1)]
    exact chunkOK_plain sep cs (fun d hd => h d (List.mem_cons_of_mem _ hd)) b

theorem chunkOK_quoted (sep : Char) :
    ∀ s : List Char, (∀ c ∈ s, c ≠ bs ∧ c ≠ qc) →
      chunkOK sep s true = some true
  | [], _ => rfl
  | c :: cs, h => by
    obtain ⟨hb, hq⟩ := h c (List.mem_cons_self c cs)
    rw [chunkOK_other sep c cs true hb hq (by simp)]
    exact chunkOK_quoted sep cs (fun d hd => h d (List.mem_cons_of_mem _ hd))

theorem replaceChar_cons (t : Char) (r : List Char) (c : Char) (cs : List Char) :
    replaceChar t r (c :: cs) = (if c = t then r else [c]) ++ replaceChar t r cs := rfl

theorem replaceChar_append (t : Char) (r : List Char) :
    ∀ s u : List Char,
      replaceChar t r (s ++ u) = replaceChar t r s ++ replaceChar t r u
  | [], _ => rfl
  | c :: cs, u => by
    rw [List.cons_append, replaceChar_cons, replaceChar_cons,
      replaceChar_append t r cs u, List.append_assoc]

theorem escapeText_cons (c : Char) (cs : List Char) :
    escapeText (c :: cs) = escapeChar c ++ escapeText cs := by
  unfold escapeText escapeChar
  rw [replaceChar_cons qc [bs, qc] c cs, replaceChar_append]
  by_cases hq : c = qc
  · subst hq
    rw [if_pos rfl, if_pos rfl]
    rfl
  · rw [if_neg hq, if_neg hq]
    by_cases hc : c = ':'
    · subst hc
      rfl
    · rw [show replaceChar ':' [bs, ':'] [c] =
        (if c = ':' then [bs, ':'] else [c]) ++ [] from rfl, if_neg hc]
      simp

theorem escapeText_eq_escapeAll : ∀ s : List Char, escapeText s = escapeAll s
  | [] => rfl
  | c :: cs => by
    rw [escapeText_cons, escapeText_eq_escapeAll cs]
    rfl

theorem unescape_bs_cons (d : Char) (ds : List Char) :
    unescape (bs :: d :: ds) = d :: unescape ds := rfl

theorem unescape_cons_ne (c : Char) (cs : List Char) (h : c ≠ bs) :
    unescape (c :: cs) = c :: unescape cs := by
  unfold unescape
  rw [if_neg h, unescape.eq_def]

theorem unescape_escapeAll :
    ∀ s : List Char, (∀ c ∈ s, c ≠ bs) → unescape (escapeAll s) = s
  | [], _ => rfl
  | c :: cs, h => by
    have hb := h c (List.mem_cons_self c cs)
    have ih := unescape_escapeAll cs (fun d hd => h d (List.mem_cons_of_mem _ hd))
    show unescape (escapeChar c ++ escapeAll cs) = c :: cs
    unfold escapeChar
    by_cases hq : c = qc
    · subst hq
      rw [if_pos rfl, List.cons_append, List.cons_append, List.nil_append,
        unescape_bs_cons, ih]
    · rw [if_neg hq]
      by_cases hc : c = ':'
      · subst hc
        rw [if_pos rfl, List.cons_append, List.cons_append, List.nil_append,
          unescape_bs_cons, ih]
      · rw [if_neg hc, List.cons_append, List.nil_append,
          unescape_cons_ne c _ hb, ih]

theorem chunkOK_escapeAll (sep : Char) :
    ∀ s : List Char, (∀ c ∈ s, c ≠ bs) →
      chunkOK sep (escapeAll s) true = some true
  | [], _ => rfl
  | c :: cs, h => by
    have hb := h c (List.mem_cons_self c cs)
    have ih := chunkOK_escapeAll sep cs (fun d hd => h d (List.mem_cons_of_mem _ hd))
    show chunkOK sep (escapeChar c ++ escapeAll cs) true = some true
    unfold escapeChar
    by_cases hq : c = qc
    · subst hq
      rw [if_pos rfl, List.cons_append, List.cons_append, List.nil_append,
        chunkOK_bs_cons]
      exact ih
    · rw [if_neg hq]
      by_cases hc : c = ':'
      · subst hc
        rw [if_pos rfl, List.cons_append, List.cons_append, List.nil_append,
          chunkOK_bs_cons]
        exact ih
      · rw [if_neg hc, List.cons_append, List.nil_append,
          chunkOK_other sep c _ true hb hq (by simp)]
        exact ih

/-! ## Character classes of the numeric renderers -/

/-- Characters produced by the numeric renderers. -/
def numChar (c : Char) : Prop :=
  c = '-' ∨ c = '.' ∨ ∃ m, m ≤ 9 ∧ c = digitChar m

theorem digitChar_numChar (n : Nat) : numChar (digitChar n) := by
  refine Or.inr (Or.inr ⟨min n 9, min_le_right n 9, ?_⟩)
  unfold digitChar
  rw [min_eq_left (min_le_right n 9)]

theorem numChar_plain (c : Char) (h : numChar c) : plainChar c := by
  rcases h with h | h | ⟨m, hm, rfl⟩
  · subst h; decide
  · subst h; decide
  · interval_cases m <;> decide

theorem renderNatAux_numChar :
    ∀ (fuel n : Nat) (acc : List Char), (∀ c ∈ acc, numChar c) →
      ∀ c ∈ renderNatAux fuel n acc, numChar c
  | 0, _, _, h => h
  | f + 1, n, acc, h => by
    unfold renderNatAux
    by_cases hn : n < 10
    · rw [if_pos hn]
      intro c hc
      rcases List.mem_cons.mp hc with rfl | hc
      · exact digitChar_numChar n
      · exact h c hc
    · rw [if_neg hn]
      refine renderNatAux_numChar f (n / 10) _ ?_
      intro c hc
      rcases List.mem_cons.mp hc with rfl | hc
      · exact digitChar_numChar (n % 10)
      · exact h c hc

theorem renderNat_numChar (n : Nat) : ∀ c ∈ renderNat n, numChar c :=
  renderNatAux_numChar (n + 1) n [] (by simp)

theorem renderInt_numChar (i : Int) : ∀ c ∈ renderInt i, numChar c := by
  unfold renderInt
  by_cases hi : i < 0
  · rw [if_pos hi]
    intro c hc
    rcases List.mem_cons.mp hc with rfl | hc
    · exact Or.inl rfl
    · exact renderNat_numChar _ c hc
  · rw [if_neg hi]
    exact renderNat_numChar _

theorem fracRender_numChar :
    ∀ (fuel : Nat) (q : ℚ), ∀ c ∈ fracRender fuel q, numChar c
  | 0, _ => by simp [fracRender]
  | f + 1, q => by
    unfold fracRender
    by_cases hq : q = 0
    · rw [if_pos hq]; simp
    · rw [if_neg hq]
      intro c hc
      rcases List.mem_cons.mp hc with rfl | hc
      · exact digitChar_numChar _
      · exact fracRender_numChar f _ c hc

theorem renderQPos_numChar (q : ℚ) : ∀ c ∈ renderQPos q, numChar c := by
  unfold renderQPos
  by_cases h : q - ⌊q⌋ = 0
  · rw [if_pos h]
    exact renderNat_numChar _
  · rw [if_neg h]
    intro c hc
    rcases List.mem_append.mp hc with hc | hc
    · exact renderNat_numChar _ c hc
    · rcases List.mem_cons.mp hc with rfl | hc
      · exact Or.inr (Or.inl rfl)
      · exact fracRender_numChar 20 _ c hc

theorem renderQ_numChar (q : ℚ) : ∀ c ∈ renderQ q, numChar c := by
  unfold renderQ
  by_cases h : q < 0
  · rw [if_pos h]
    intro c hc
    rcases List.mem_cons.mp hc with rfl | hc
    · exact Or.inl rfl
    · exact renderQPos_numChar _ c hc
  · rw [if_neg h]
    exact renderQPos_numChar _

theorem renderQ_plain (q : ℚ) : ∀ c ∈ renderQ q, plainChar c :=
  fun c hc => numChar_plain c (renderQ_numChar q c hc)

theorem renderInt_plain (i : Int) : ∀ c ∈ renderInt i, plainChar c :=
  fun c hc => numChar_plain c (renderInt_numChar i c hc)

/-- Evaluating `renderQ` on whole numbers. -/
theorem renderQ_natCast (n : ℕ) : renderQ ((n : ℕ) : ℚ) = renderNat n := by
  unfold renderQ
  rw [if_neg (not_lt.mpr (by positivity))]
  unfold renderQPos
  rw [Int.floor_natCast]
  have h0 : ((n : ℚ) - ((n : ℤ) : ℚ)) = 0 := by push_cast; ring
  rw [h0, if_pos rfl, Int.toNat_natCast]

/-! ## Chunk facts about the compiled filter -/

theorem chunkOK_glue (sep : Char) (A B : List Char) (b b₂ b₃ : Bool)
    (h1 : chunkOK sep A b = some b₂) (h2 : chunkOK sep B b₂ = some b₃) :
    chunkOK sep (A ++ B) b = some b₃ :=
  (chunkOK_append sep A B b b₂ h1).trans h2

theorem plain_comma (c : Char) (h : plainChar c) : c ≠ bs ∧ c ≠ qc ∧ c ≠ ',' :=
  ⟨h.1, h.2.1, h.2.2.1⟩

theorem plain_colon (c : Char) (h : plainChar c) : c ≠ bs ∧ c ≠ qc ∧ c ≠ ':' :=
  ⟨h.1, h.2.1, h.2.2.2⟩

theorem plain_quoted (c : Char) (h : plainChar c) : c ≠ bs ∧ c ≠ qc :=
  ⟨h.1, h.2.1⟩

/-- Overlays whose text is backslash-free and whose other interpolated
fields contain no grammar metacharacters. -/
def benignOverlay (ov : TextOverlay) : Prop :=
  (∀ c ∈ ov.text, c ≠ bs) ∧ (∀ c ∈ ov.color, plainChar c) ∧
  (∀ c ∈ ov.outlineColor, plainChar c) ∧ (∀ c ∈ ov.fontFamily, plainChar c)

instance (ov : TextOverlay) : Decidable (benignOverlay ov) := by
  unfold benignOverlay; infer_instance

theorem chunkOK_qc_single (sep : Char) (b : Bool) :
    chunkOK sep [qc] b = some (!b) := by
  rw [chunkOK_qc, chunkOK_nil]

theorem chunkOK_textPart (sep : Char) (ov : TextOverlay)
    (hplain : ∀ c ∈ ("drawtext=text=".data : List Char), c ≠ bs ∧ c ≠ qc ∧ c ≠ sep)
    (ht : ∀ c ∈ ov.text, c ≠ bs) :
    chunkOK sep (textPart ov) false = some false := by
  unfold textPart
  refine chunkOK_glue sep _ [qc] false true false ?_ (chunkOK_qc_single sep true)
  refine chunkOK_glue sep _ (escapeText ov.text) false true true ?_ ?_
  · exact chunkOK_glue sep _ [qc] false false true
      (chunkOK_plain sep _ hplain false) (chunkOK_qc_single sep false)
  · rw [escapeText_eq_escapeAll]
    exact chunkOK_escapeAll sep ov.text ht

theorem chunkOK_geomPart_comma (ov : TextOverlay) (w h : ℚ)
    (hc : ∀ c ∈ ov.color, plainChar c) :
    chunkOK ',' (geomPart ov w h) false = some false := by
  unfold geomPart
  refine chunkOK_glue ',' _ _ false false false ?_
    (chunkOK_plain ',' _ (fun c hcc => plain_comma c (hc c hcc)) false)
  refine chunkOK_glue ',' _ _ false false false ?_
    (chunkOK_plain ',' _ (by decide) false)
  refine chunkOK_glue ',' _ _ false false false ?_
    (chunkOK_plain ',' _ (fun c hcc => plain_comma c (renderInt_plain _ c hcc)) false)
  refine chunkOK_glue ',' _ _ false false false ?_
    (chunkOK_plain ',' _ (by decide) false)
  refine chunkOK_glue ',' _ _ false false false ?_
    (chunkOK_plain ',' _ (fun c hcc => plain_comma c (renderInt_plain _ c hcc)) false)
  refine chunkOK_glue ',' _ _ false false false ?_
    (chunkOK_plain ',' _ (by decide) false)
  exact chunkOK_glue ',' _ _ false false false
    (chunkOK_plain ',' _ (by decide) false)
    (chunkOK_plain ',' _ (fun c hcc => plain_comma c (renderInt_plain _ c hcc)) false)

theorem chunkOK_outlinePart_comma (ov : TextOverlay)
    (hc : ∀ c ∈ ov.outlineColor, plainChar c) :
    chunkOK ',' (outlinePart ov) false = some false := by
  unfold outlinePart
  by_cases hw : 0 < ov.outlineWidth
  · rw [if_pos hw]
    refine chunkOK_glue ',' _ _ false false false ?_
      (chunkOK_plain ',' _ (fun c hcc => plain_comma c (hc c hcc)) false)
    refine chunkOK_glue ',' _ _ false false false ?_
      (chunkOK_plain ',' _ (by decide) false)
    exact chunkOK_glue ',' _ _ false false false
      (chunkOK_plain ',' _ (by decide) false)
      (chunkOK_plain ',' _ (fun c hcc => plain_comma c (renderQ_plain _ c hcc)) false)
  · rw [if_neg hw]
    exact chunkOK_nil ',' false

theorem chunkOK_fontFilePart_comma (ov : TextOverlay)
    (hf : ∀ c ∈ ov.fontFamily, plainChar c) :
    chunkOK ',' (fontFilePart ov) false = some false := by
  unfold fontFilePart
  by_cases hcond : ov.fontFamily ≠ [] ∧ ov.fontFamily ≠ "Inter".data
  · rw [if_pos hcond]
    refine chunkOK_glue ',' _ _ false false false ?_
      (chunkOK_plain ',' _ (by decide) false)
    exact chunkOK_glue ',' _ _ false false false
      (chunkOK_plain ',' _ (by decide) false)
      (chunkOK_plain ',' _ (fun c hcc => plain_comma c (hf c hcc)) false)
  · rw [if_neg hcond]
    exact chunkOK_nil ',' false

theorem chunkOK_enablePart_comma (ov : TextOverlay) :
    chunkOK ',' (enablePart ov) false = some false := by
  unfold enablePart
  refine chunkOK_glue ',' _ [qc] false true false ?_ (chunkOK_qc_single ',' true)
  refine chunkOK_glue ',' _ _ false true true ?_
    (chunkOK_quoted ',' _ (by decide))
  refine chunkOK_glue ',' _ _ false true true ?_
    (chunkOK_quoted ',' _ (fun c hcc => plain_quoted c (renderQ_plain _ c hcc)))
  refine chunkOK_glue ',' _ _ false true true ?_
    (chunkOK_quoted ',' _ (by decide))
  refine chunkOK_glue ',' _ _ false true true ?_
    (chunkOK_quoted ',' _ (fun c hcc => plain_quoted c (renderQ_plain _ c hcc)))
  refine chunkOK_glue ',' _ _ false true true ?_
    (chunkOK_quoted ',' _ (by decide))
  exact chunkOK_glue ',' _ [qc] false false true
    (chunkOK_plain ',' _ (by decide) false) (chunkOK_qc_single ',' false)

theorem chunkOK_createTextFilter_comma (ov : TextOverlay) (w h : ℚ)
    (hb : benignOverlay ov) :
    chunkOK ',' (createTextFilter ov w h) false = some false := by
  obtain ⟨ht, hc, ho, hf⟩ := hb
  unfold createTextFilter
  refine chunkOK_glue ',' _ _ false false false ?_ (chunkOK_enablePart_comma ov)
  refine chunkOK_glue ',' _ _ false false false ?_ (chunkOK_fontFilePart_comma ov hf)
  refine chunkOK_glue ',' _ _ false false false ?_ (chunkOK_outlinePart_comma ov ho)
  exact chunkOK_glue ',' _ _ false false false
    (chunkOK_textPart ',' ov (by decide) ht) (chunkOK_geomPart_comma ov w h hc)

theorem createTextFilter_colon_head (ov : TextOverlay) (w h : ℚ)
    (ht : ∀ c ∈ ov.text, c ≠ bs) :
    (splitG ':' (createTextFilter ov w h) false).head? = some (textPart ov) := by
  have hdec : createTextFilter ov w h = textPart ov ++ ':' ::
      ("x=".data ++ (renderInt (round (ov.x / 100 * w)) ++ (":y=".data ++
       (renderInt (round (ov.y / 100 * h)) ++ (":fontsize=".data ++
       (renderInt (round (ov.fontSize * (w / 400))) ++ (":fontcolor=".data ++
       (ov.color ++ (outlinePart ov ++ (fontFilePart ov ++ enablePart ov)))))))))) := by
    unfold createTextFilter geomPart
    rw [show (":x=".data : List Char) = ':' :: "x=".data from rfl]
    simp only [List.append_assoc, List.cons_append]
  rw [hdec,
    splitG_boundary ':' colon_ne_bs colon_ne_qc (textPart ov) _
      (chunkOK_textPart ':' ov (by decide) ht)]
  rfl

theorem splitG_joinFilters (ovs : List TextOverlay) (w h : ℚ)
    (hne : ovs ≠ []) (hb : ∀ ov ∈ ovs, benignOverlay ov) :
    splitG ',' (joinFilters ovs w h) false =
      ovs.map fun ov => createTextFilter ov w h := by
  unfold joinFilters
  refine splitG_joinSep ',' comma_ne_bs comma_ne_qc _ (by simpa using hne) ?_
  intro f hf
  rcases List.mem_map.mp hf with ⟨ov, hov, rfl⟩
  exact chunkOK_createTextFilter_comma ov w h (hb ov hov)

/-! ## Batch orchestrator lemmas -/

theorem batchLoop_eq :
    ∀ (os : List ItemOutcome) (vs : List VideoMeta) (rs es : List ItemResult),
      os.length ≤ vs.length →
      batchLoop os vs rs es =
        .ok (rs ++ (batchSplit os vs).1, es ++ (batchSplit os vs).2)
  | [], vs, rs, es, _ => by simp [batchLoop, batchSplit]
  | _ :: _, [], _, _, h => by simp at h
  | o :: os, v :: vs, rs, es, h => by
    have h' : os.length ≤ vs.length := by simpa using h
    cases o with
    | ok =>
      rw [show batchLoop (.ok :: os) (v :: vs) rs es =
          batchLoop os vs (rs ++ [{ originalName := v.name, success := true }]) es
        from rfl, batchLoop_eq os vs _ _ h']
      simp [batchSplit, List.append_assoc]
    | fail =>
      rw [show batchLoop (.fail :: os) (v :: vs) rs es =
          batchLoop os vs rs (es ++ [{ originalName := v.name, success := false }])
        from rfl, batchLoop_eq os vs _ _ h']
      simp [batchSplit, List.append_assoc]

theorem batchLoop_error :
    ∀ (os : List ItemOutcome) (vs : List VideoMeta) (rs es : List ItemResult),
      vs.length < os.length → batchLoop os vs rs es = .error ()
  | [], _, _, _, h => by simp at h
  | o :: _, [], _, _, _ => by cases o <;> rfl
  | o :: os, v :: vs, rs, es, h => by
    have h' : vs.length < os.length := by simpa using h
    cases o with
    | ok =>
      rw [show batchLoop (.ok :: os) (v :: vs) rs es =
          batchLoop os vs (rs ++ [{ originalName := v.name, success := true }]) es
        from rfl]
      exact batchLoop_error os vs _ _ h'
    | fail =>
      rw [show batchLoop (.fail :: os) (v :: vs) rs es =
          batchLoop os vs rs (es ++ [{ originalName := v.name, success := false }])
        from rfl]
      exact batchLoop_error os vs _ _ h'

theorem processBatch_ok (os : List ItemOutcome) (vs : List VideoMeta)
    (hne : os ≠ []) (hlen : os.length ≤ vs.length) :
    processBatch os vs =
      .ok (batchSplit os vs).1.length os.length
        (batchSplit os vs).1 (batchSplit os vs).2 := by
  unfold processBatch
  rw [if_neg (by simpa using hne), batchLoop_eq os vs [] [] hlen]
  simp

theorem batchSplit_count :
    ∀ (os : List ItemOutcome) (vs : List VideoMeta), os.length ≤ vs.length →
      (batchSplit os vs).1.length + (batchSplit os vs).2.length = os.length
  | [], vs, _ => by simp [batchSplit]
  | _ :: _, [], h => by simp at h
  | o :: os, v :: vs, h => by
    have h' : os.length ≤ vs.length := by simpa using h
    have ih := batchSplit_count os vs h'
    cases o <;> simp [batchSplit] <;> omega

theorem batchSplit_all_ok :
    ∀ vs : List VideoMeta,
      batchSplit (List.replicate vs.length .ok) vs =
        (vs.map fun m => { originalName := m.name, success := true }, [])
  | [] => by simp [batchSplit]
  | v :: vs => by
    rw [show (v :: vs).length = vs.length + 1 from rfl, List.replicate_succ]
    simp [batchSplit, batchSplit_all_ok vs]

theorem batchSplit_one_fail :
    ∀ (p : List VideoMeta) (v : VideoMeta) (s : List VideoMeta),
      batchSplit (List.replicate p.length .ok ++ .fail :: List.replicate s.length .ok)
        (p ++ v :: s) =
      ((p ++ s).map fun m => { originalName := m.name, success := true },
       [{ originalName := v.name, success := false }])
  | [], v, s => by
    simp [batchSplit, batchSplit_all_ok s]
  | m :: p, v, s => by
    rw [show (m :: p).length = p.length + 1 from rfl, List.replicate_succ]
    simp [batchSplit, batchSplit_one_fail p v s]

/-! ## Lifecycle sweep lemmas -/

theorem sweepArea_mem (now : ℚ) (files : List Artifact) (a : Artifact) :
    a ∈ sweepArea now files ↔ a ∈ files ∧ ¬(now - a.mtime > maxAgeMs) := by
  simp [sweepArea, List.mem_filter]

theorem sweepArea_idem (now : ℚ) (files : List Artifact) :
    sweepArea now (sweepArea now files) = sweepArea now files := by
  simp [sweepArea, List.filter_filter]

/-! ## Concrete evaluation helpers -/

theorem createTextFilter_eval (ov : TextOverlay) (w h : ℚ) (px py fs : ℤ)
    (hx : round (ov.x / 100 * w) = px) (hy : round (ov.y / 100 * h) = py)
    (hf : round (ov.fontSize * (w / 400)) = fs) :
    createTextFilter ov w h =
      textPart ov ++ (":x=".data ++ renderInt px ++ ":y=".data ++ renderInt py ++
        ":fontsize=".data ++ renderInt fs ++ ":fontcolor=".data ++ ov.color) ++
      outlinePart ov ++ fontFilePart ov ++ enablePart ov := by
  unfold createTextFilter geomPart
  rw [hx, hy, hf]

theorem enablePart_eval (ov : TextOverlay) (m n : ℕ)
    (hs : ov.startTime = ((m : ℕ) : ℚ)) (he : ov.endTime = ((n : ℕ) : ℚ)) :
    enablePart ov = ":enable=".data ++ [qc] ++ "between(t,".data ++ renderNat m ++
      [','] ++ renderNat n ++ ")".data ++ [qc] := by
  unfold enablePart
  rw [hs, he, renderQ_natCast, renderQ_natCast]

/-- The §8 scenario-1 overlay: `{x:15, y:50, text:"Hello", startTime:0,
endTime:5}`. -/
def ovHello : TextOverlay :=
  { text := "Hello".data, x := 15, y := 50, fontSize := 24,
    color := "white".data, outlineWidth := 0, outlineColor := "black".data,
    fontFamily := "Inter".data, startTime := ((0 : ℕ) : ℚ), endTime := ((5 : ℕ) : ℚ) }

/-- The §8 scenario-3 overlay: `{startTime:18, endTime:25}` under a 20s cap. -/
def ov1825 : TextOverlay :=
  { text := "Hi".data, x := 15, y := 50, fontSize := 24,
    color := "white".data, outlineWidth := 0, outlineColor := "black".data,
    fontFamily := "Inter".data, startTime := ((18 : ℕ) : ℚ), endTime := ((25 : ℕ) : ℚ) }

/-- An overlay whose text is a backslash followed by a quote. -/
def ovBadEsc : TextOverlay :=
  { text := [bs, qc], x := 10, y := 20, fontSize := 20,
    color := "white".data, outlineWidth := 0, outlineColor := "black".data,
    fontFamily := "Inter".data, startTime := ((0 : ℕ) : ℚ), endTime := ((5 : ℕ) : ℚ) }

/-- An overlay whose text contains a comma. -/
def ovComma : TextOverlay :=
  { text := "a,b".data, x := 10, y := 10, fontSize := 20,
    color := "white".data, outlineWidth := 0, outlineColor := "black".data,
    fontFamily := "Inter".data, startTime := ((0 : ℕ) : ℚ), endTime := ((5 : ℕ) : ℚ) }

/-- An overlay whose text contains a quote and a colon. -/
def ovQuote : TextOverlay :=
  { text := "it".data ++ [qc] ++ "s 5:00".data, x := 15, y := 50, fontSize := 24,
    color := "white".data, outlineWidth := ((2 : ℕ) : ℚ), outlineColor := "black".data,
    fontFamily := "Arial".data, startTime := ((0 : ℕ) : ℚ), endTime := ((5 : ℕ) : ℚ) }

theorem compile_ovHello :
    createTextFilter ovHello 1920 1080 =
      "drawtext=text=".data ++ [qc] ++ "Hello".data ++ [qc] ++
      ":x=288:y=540:fontsize=115:fontcolor=white:enable=".data ++ [qc] ++
      "between(t,0,5)".data ++ [qc] := by
  rw [createTextFilter_eval ovHello 1920 1080 288 540 115
      (by show round ((15 : ℚ) / 100 * 1920) = 288; norm_num [round_eq])
      (by show round ((50 : ℚ) / 100 * 1080) = 540; norm_num [round_eq])
      (by show round ((24 : ℚ) * (1920 / 400)) = 115; norm_num [round_eq]),
    enablePart_eval ovHello 0 5 rfl rfl]
  decide

theorem compile_ov1825 :
    createTextFilter ov1825 1920 1080 =
      "drawtext=text=".data ++ [qc] ++ "Hi".data ++ [qc] ++
      ":x=288:y=540:fontsize=115:fontcolor=white:enable=".data ++ [qc] ++
      "between(t,18,25)".data ++ [qc] := by
  rw [createTextFilter_eval ov1825 1920 1080 288 540 115
      (by show round ((15 : ℚ) / 100 * 1920) = 288; norm_num [round_eq])
      (by show round ((50 : ℚ) / 100 * 1080) = 540; norm_num [round_eq])
      (by show round ((24 : ℚ) * (1920 / 400)) = 115; norm_num [round_eq]),
    enablePart_eval ov1825 18 25 rfl rfl]
  decide

theorem compile_ovBadEsc :
    createTextFilter ovBadEsc 100 100 =
      "drawtext=text=".data ++ [qc] ++ [bs, bs, qc] ++ [qc] ++
      ":x=10:y=20:fontsize=5:fontcolor=white:enable=".data ++ [qc] ++
      "between(t,0,5)".data ++ [qc] := by
  rw [createTextFilter_eval ovBadEsc 100 100 10 20 5
      (by show round ((10 : ℚ) / 100 * 100) = 10; norm_num [round_eq])
      (by show round ((20 : ℚ) / 100 * 100) = 20; norm_num [round_eq])
      (by show round ((20 : ℚ) * (100 / 400)) = 5; norm_num [round_eq]),
    enablePart_eval ovBadEsc 0 5 rfl rfl]
  decide

theorem compile_ovComma :
    createTextFilter ovComma 100 100 =
      "drawtext=text=".data ++ [qc] ++ "a,b".data ++ [qc] ++
      ":x=10:y=10:fontsize=5:fontcolor=white:enable=".data ++ [qc] ++
      "between(t,0,5)".data ++ [qc] := by
  rw [createTextFilter_eval ovComma 100 100 10 10 5
      (by show round ((10 : ℚ) / 100 * 100) = 10; norm_num [round_eq])
      (by show round ((10 : ℚ) / 100 * 100) = 10; norm_num [round_eq])
      (by show round ((20 : ℚ) * (100 / 400)) = 5; norm_num [round_eq]),
    enablePart_eval ovComma 0 5 rfl rfl]
  decide

theorem escapeAll_id :
    ∀ t : List Char, (∀ c ∈ t, c ≠ qc ∧ c ≠ ':') → escapeAll t = t
  | [], _ => rfl
  | c :: cs, h => by
    obtain ⟨hq, hc⟩ := h c (List.mem_cons_self c cs)
    show escapeChar c ++ escapeAll cs = c :: cs
    unfold escapeChar
    rw [if_neg hq, if_neg hc, List.cons_append, List.nil_append,
      escapeAll_id cs (fun d hd => h d (List.mem_cons_of_mem _ hd))]

/-- An overlay carrying only a font family, used to quantify over families. -/
def mkFamilyOverlay (fam : List Char) : TextOverlay :=
  { text := [], x := 0, y := 0, fontSize := 0, color := [], outlineWidth := 0,
    outlineColor := [], fontFamily := fam, startTime := 0, endTime := 0 }

/-! ## Claim theorems -/

/-- C6 (confirmed): for every overlay and frame dimensions, the compiled
draw-text primitive carries `x = round(x/100 ⬝ width)`,
`y = round(y/100 ⬝ height)` and `fontsize = round(fontSize ⬝ width/400)`;
for a 1920×1080 frame and an overlay at (15 %, 50 %) this is pixel position
(288, 540), as the compiled string for `ovHello` shows. -/
theorem c6_pixel_position_and_font_scale :
    (∀ (ov : TextOverlay) (w h : ℚ),
      createTextFilter ov w h =
        textPart ov ++ (":x=".data ++ renderInt (round (ov.x / 100 * w)) ++
          ":y=".data ++ renderInt (round (ov.y / 100 * h)) ++
          ":fontsize=".data ++ renderInt (round (ov.fontSize * (w / 400))) ++
          ":fontcolor=".data ++ ov.color) ++
        outlinePart ov ++ fontFilePart ov ++ enablePart ov) ∧
    round ((15 : ℚ) / 100 * 1920) = 288 ∧
    round ((50 : ℚ) / 100 * 1080) = 540 ∧
    round ((24 : ℚ) * (1920 / 400)) = 115 ∧
    createTextFilter ovHello 1920 1080 =
      "drawtext=text=".data ++ [qc] ++ "Hello".data ++ [qc] ++
      ":x=288:y=540:fontsize=115:fontcolor=white:enable=".data ++ [qc] ++
      "between(t,0,5)".data ++ [qc] :=
  ⟨fun ov w h => createTextFilter_eval ov w h _ _ _ rfl rfl rfl,
   by norm_num [round_eq], by norm_num [round_eq], by norm_num [round_eq],
   compile_ovHello⟩

/-- C10 (confirmed): the escaping step rewrites only quotes and colons and
passes every other character through; a comma in the overlay text reaches the
compiled expression unchanged, and since the per-overlay filters are joined
with commas, a naive comma split of the compiled expression for the single
overlay `ovComma` has 4 segments, exceeding the overlay count 1. -/
theorem c10_escape_passes_comma_through :
    (∀ t : List Char, (∀ c ∈ t, c ≠ qc ∧ c ≠ ':') → escapeText t = t) ∧
    ',' ∈ escapeText ovComma.text ∧
    joinFilters [ovComma] 100 100 = createTextFilter ovComma 100 100 ∧
    (naiveSplitComma (joinFilters [ovComma] 100 100)).length = 4 ∧
    [ovComma].length = 1 := by
  refine ⟨?_, by decide, rfl, ?_, rfl⟩
  · intro t h
    rw [escapeText_eq_escapeAll]
    exact escapeAll_id t h
  · rw [show joinFilters [ovComma] 100 100 = createTextFilter ovComma 100 100
      from rfl, compile_ovComma]
    decide

/-- C10 witness: the universally quantified part applied to a concrete text
with neither quote nor colon. -/
theorem c10_escape_passes_comma_through_witness :
    escapeText "Hello".data = "Hello".data :=
  c10_escape_passes_comma_through.1 "Hello".data (by decide)

/-- C9 (confirmed): after one sweep pass, every artifact older than the
24-hour window is absent and every younger artifact is still present, in both
areas; a second pass immediately after the first changes nothing. -/
theorem c9_lifecycle_sweep :
    ∀ (now : ℚ) (s : StorageState),
      (∀ a ∈ s.output, now - a.mtime > maxAgeMs →
        a ∉ (cleanupOldFiles now s).output) ∧
      (∀ a ∈ s.output, now - a.mtime < maxAgeMs →
        a ∈ (cleanupOldFiles now s).output) ∧
      (∀ a ∈ s.uploads, now - a.mtime > maxAgeMs →
        a ∉ (cleanupOldFiles now s).uploads) ∧
      (∀ a ∈ s.uploads, now - a.mtime < maxAgeMs →
        a ∈ (cleanupOldFiles now s).uploads) ∧
      cleanupOldFiles now (cleanupOldFiles now s) = cleanupOldFiles now s := by
  intro now s
  refine ⟨?_, ?_, ?_, ?_, ?_⟩
  · intro a _ hage hmem
    exact ((sweepArea_mem now s.output a).mp hmem).2 hage
  · intro a ha hage
    exact (sweepArea_mem now s.output a).mpr ⟨ha, not_lt.mpr (le_of_lt hage)⟩
  · intro a _ hage hmem
    exact ((sweepArea_mem now s.uploads a).mp hmem).2 hage
  · intro a ha hage
    exact (sweepArea_mem now s.uploads a).mpr ⟨ha, not_lt.mpr (le_of_lt hage)⟩
  · show cleanupOldFiles now
      { output := sweepArea now s.output, uploads := sweepArea now s.uploads } = _
    unfold cleanupOldFiles
    rw [sweepArea_idem, sweepArea_idem]

/-- An artifact 25 hours old at the witness sweep time. -/
def artOld : Artifact := { name := "stale.mp4".data, mtime := 0 }

/-- An artifact 1 hour old at the witness sweep time. -/
def artNew : Artifact := { name := "fresh.mp4".data, mtime := 86400000 }

/-- C9 witness: a sweep at `now = 90000000` (25 h) deletes the 25-hour-old
artifact, keeps the 1-hour-old one, and a repeated sweep is a no-op. -/
theorem c9_lifecycle_sweep_witness :
    artOld ∉ (cleanupOldFiles 90000000
      { output := [artOld, artNew], uploads := [artOld] }).output ∧
    artNew ∈ (cleanupOldFiles 90000000
      { output := [artOld, artNew], uploads := [artOld] }).output ∧
    cleanupOldFiles 90000000 (cleanupOldFiles 90000000
      { output := [artOld, artNew], uploads := [artOld] }) =
      cleanupOldFiles 90000000 { output := [artOld, artNew], uploads := [artOld] } :=
  ⟨(c9_lifecycle_sweep 90000000 _).1 artOld (by simp)
      (by show (90000000 : ℚ) - artOld.mtime > maxAgeMs
          unfold artOld maxAgeMs
          norm_num),
   (c9_lifecycle_sweep 90000000 _).2.1 artNew (by simp)
      (by show (90000000 : ℚ) - artNew.mtime < maxAgeMs
          unfold artNew maxAgeMs
          norm_num),
   (c9_lifecycle_sweep 90000000 _).2.2.2.2⟩

/-- C3 counterexample: when the encoder fails after part of the output was
written (`EncodeOutcome.failPartial`), the job ends `Failed` with the output
artifact still present — the catch block of the handler (index.js 186-188)
deletes only the input — so "output exists iff Completed" is false. -/
theorem c3_partial_output_counterexample :
    (processVideoJob ProbeOutcome.ok EncodeOutcome.failPartial).1 = JobState.Failed ∧
    (processVideoJob ProbeOutcome.ok EncodeOutcome.failPartial).2.outputPresent = true ∧
    ¬((processVideoJob ProbeOutcome.ok EncodeOutcome.failPartial).2.outputPresent = true ↔
      (processVideoJob ProbeOutcome.ok EncodeOutcome.failPartial).1 = JobState.Completed) := by
  decide

/-- C3 (corrected): in every terminal state the input artifact is deleted
exactly once and is absent; a completed job leaves the output present; but
the output is present exactly when the job completed OR the encoder failed
after a partial write — a partially written output is never deleted. -/
theorem c3_cleanup_invariant_amended :
    ∀ (p : ProbeOutcome) (e : EncodeOutcome),
      (processVideoJob p e).2.inputDeletes = 1 ∧
      (processVideoJob p e).2.inputPresent = false ∧
      ((processVideoJob p e).1 = JobState.Completed →
        (processVideoJob p e).2.outputPresent = true) ∧
      ((processVideoJob p e).2.outputPresent = true ↔
        ((processVideoJob p e).1 = JobState.Completed ∨
         (p = ProbeOutcome.ok ∧ e = EncodeOutcome.failPartial))) := by
  intro p e
  cases p <;> cases e <;> decide

/-- C3 witness: the amended invariant at the successful run. -/
theorem c3_cleanup_invariant_amended_witness :
    (processVideoJob ProbeOutcome.ok EncodeOutcome.success).2.inputDeletes = 1 ∧
    (processVideoJob ProbeOutcome.ok EncodeOutcome.success).2.inputPresent = false ∧
    ((processVideoJob ProbeOutcome.ok EncodeOutcome.success).1 = JobState.Completed →
      (processVideoJob ProbeOutcome.ok EncodeOutcome.success).2.outputPresent = true) ∧
    ((processVideoJob ProbeOutcome.ok EncodeOutcome.success).2.outputPresent = true ↔
      ((processVideoJob ProbeOutcome.ok EncodeOutcome.success).1 = JobState.Completed ∨
       (ProbeOutcome.ok = ProbeOutcome.ok ∧
        EncodeOutcome.success = EncodeOutcome.failPartial))) :=
  c3_cleanup_invariant_amended ProbeOutcome.ok EncodeOutcome.success

/-- C5 counterexample: with natural duration 60 and a cap of 100, the handler
passes the raw cap 100 to the encoder (index.js 137-138), while the claimed
effective duration is 60 — the effective duration is not what is passed. -/
theorem c5_raw_cap_counterexample :
    durationOption (some 100) = some 100 ∧
    effectiveDurationSpec 60 (some 100) = 60 ∧
    durationOption (some 100) ≠ some (effectiveDurationSpec 60 (some 100)) := by
  have h1 : durationOption (some (100 : ℚ)) = some 100 := by
    show (if (0 : ℚ) < 100 then some (100 : ℚ) else none) = some 100
    rw [if_pos (by norm_num)]
  have h2 : effectiveDurationSpec 60 (some (100 : ℚ)) = 60 := by
    show (if (100 : ℚ) < 60 then (100 : ℚ) else 60) = 60
    rw [if_neg (by norm_num)]
  refine ⟨h1, h2, ?_⟩
  rw [h1, h2]
  intro hcontra
  injection hcontra with hcontra
  norm_num at hcontra

/-- C5 (corrected): the handler passes the raw positive cap to the encoder,
independent of the overlay list; because the encoder truncates at the cap,
the rendered duration equals the spec's effective duration and never exceeds
the cap for positive caps, and with no cap the rendered duration is the
natural duration. -/
theorem c5_duration_cap_amended :
    ∀ (natural m : ℚ) (ovs : List TextOverlay) (w h : ℚ),
      0 < natural → 0 < m →
      (buildCommand ovs w h (some m)).durationCap = some m ∧
      renderedDuration natural (durationOption (some m)) =
        effectiveDurationSpec natural (some m) ∧
      renderedDuration natural (durationOption (some m)) ≤ m ∧
      (buildCommand ovs w h none).durationCap = none ∧
      renderedDuration natural (durationOption none) = natural := by
  intro natural m ovs w h _ hm
  have hdur : durationOption (some m) = some m := by
    show (if 0 < m then some m else none) = some m
    rw [if_pos hm]
  refine ⟨hdur, ?_, ?_, rfl, rfl⟩
  · rw [hdur]
    show min natural m = if m < natural then m else natural
    rcases lt_or_le m natural with hlt | hle
    · rw [if_pos hlt, min_eq_right (le_of_lt hlt)]
    · rw [if_neg (not_lt.mpr hle), min_eq_left hle]
  · rw [hdur]
    exact min_le_right natural m

/-- C5 witness: natural duration 60, cap 20, no overlays. -/
theorem c5_duration_cap_amended_witness :
    (buildCommand [] 1920 1080 (some 20)).durationCap = some 20 ∧
    renderedDuration 60 (durationOption (some 20)) =
      effectiveDurationSpec 60 (some 20) ∧
    renderedDuration 60 (durationOption (some 20)) ≤ 20 ∧
    (buildCommand [] 1920 1080 none).durationCap = none ∧
    renderedDuration 60 (durationOption none) = 60 :=
  c5_duration_cap_amended 60 20 [] 1920 1080 (by norm_num) (by norm_num)

/-- C7 counterexample: no finite known-family table governs the emission of
the font-file parameter — the compiler emits one for every nonempty family
other than `Inter`, an infinite set, so "an unrecognized family emits no
font-file parameter" fails for any candidate lookup. -/
theorem c7_no_lookup_counterexample :
    ¬ ∃ K : Finset (List Char), ∀ ov : TextOverlay,
        fontFilePart ov ≠ [] ↔ ov.fontFamily ∈ K := by
  rintro ⟨K, hK⟩
  have hmem : ∀ n : ℕ, List.replicate (n + 1) 'A' ∈ K := by
    intro n
    have hne : List.replicate (n + 1) 'A' ≠ ([] : List Char) := by
      simp [List.replicate_succ]
    have hni : List.replicate (n + 1) 'A' ≠ "Inter".data := by
      intro hcontra
      rw [List.replicate_succ] at hcontra
      rw [show ("Inter".data : List Char) = 'I' :: "nter".data from rfl] at hcontra
      injection hcontra with h1 _
      exact absurd h1 (by decide)
    have hemit : fontFilePart (mkFamilyOverlay (List.replicate (n + 1) 'A')) ≠ [] := by
      show (if List.replicate (n + 1) 'A' ≠ [] ∧
          List.replicate (n + 1) 'A' ≠ "Inter".data then
        ":fontfile=/System/Library/Fonts/".data ++ List.replicate (n + 1) 'A' ++
          ".ttf".data else []) ≠ []
      rw [if_pos ⟨hne, hni⟩]
      simp
    exact (hK (mkFamilyOverlay (List.replicate (n + 1) 'A'))).mp hemit
  have hinj : Function.Injective fun n : ℕ => List.replicate (n + 1) 'A' := by
    intro a b hab
    have hlen := congrArg List.length hab
    simpa using hlen
  have hinf : (↑K : Set (List Char)).Infinite :=
    Set.infinite_of_injective_forall_mem hinj fun n => by simpa using hmem n
  exact K.finite_toSet.not_infinite hinf

/-- C7 (corrected): the compiled primitive carries a font-file parameter
exactly when the declared family is nonempty and differs from the default
`Inter`; the emitted path is built by direct interpolation into
`/System/Library/Fonts/<family>.ttf`, with no lookup of known families. -/
theorem c7_fontfile_amended :
    ∀ ov : TextOverlay,
      (fontFilePart ov = [] ↔
        (ov.fontFamily = [] ∨ ov.fontFamily = "Inter".data)) ∧
      (ov.fontFamily ≠ [] → ov.fontFamily ≠ "Inter".data →
        fontFilePart ov =
          ":fontfile=/System/Library/Fonts/".data ++ ov.fontFamily ++ ".ttf".data) ∧
      ∀ w h : ℚ, ∃ pre,
        createTextFilter ov w h = pre ++ fontFilePart ov ++ enablePart ov := by
  intro ov
  refine ⟨?_, ?_, ?_⟩
  · unfold fontFilePart
    by_cases hcond : ov.fontFamily ≠ [] ∧ ov.fontFamily ≠ "Inter".data
    · rw [if_pos hcond]
      constructor
      · intro hcontra
        rcases List.append_eq_nil.mp hcontra with ⟨hleft, _⟩
        rcases List.append_eq_nil.mp hleft with ⟨habs, _⟩
        exact absurd habs (by decide)
      · intro hcontra
        rcases hcontra with hcontra | hcontra
        · exact absurd hcontra hcond.1
        · exact absurd hcontra hcond.2
    · rw [if_neg hcond]
      push_neg at hcond
      constructor
      · intro _
        by_cases hnil : ov.fontFamily = []
        · exact Or.inl hnil
        · exact Or.inr (hcond hnil)
      · intro _
        rfl
  · intro h1 h2
    unfold fontFilePart
    rw [if_pos ⟨h1, h2⟩]
  · intro w h
    exact ⟨textPart ov ++ geomPart ov w h ++ outlinePart ov, rfl⟩

/-- C7 witness: the family `Arial` emits the interpolated font path. -/
theorem c7_fontfile_amended_witness :
    fontFilePart ovQuote =
      ":fontfile=/System/Library/Fonts/".data ++ ovQuote.fontFamily ++ ".ttf".data :=
  (c7_fontfile_amended ovQuote).2.1 (by decide) (by decide)

/-- C8 (confirmed): the batch endpoint rejects the whole call exactly for
malformed input — 400 precisely when the upload list is empty, 500 precisely
when the metadata list is shorter than the upload list — and otherwise
returns the per-item aggregate whatever the item outcomes are, so no item's
probe or encode failure ever fails the call. -/
theorem c8_whole_batch_failure_only_malformed :
    ∀ (os : List ItemOutcome) (vs : List VideoMeta),
      (processBatch os vs = BatchReply.badRequest ↔ os = []) ∧
      (processBatch os vs = BatchReply.serverError ↔
        (os ≠ [] ∧ vs.length < os.length)) ∧
      (os ≠ [] → os.length ≤ vs.length →
        processBatch os vs =
          BatchReply.ok (batchSplit os vs).1.length os.length
            (batchSplit os vs).1 (batchSplit os vs).2) := by
  intro os vs
  by_cases hne : os = []
  · subst hne
    refine ⟨?_, ?_, fun hcontra _ => absurd rfl hcontra⟩
    · simp [processBatch]
    · simp [processBatch]
  · rcases le_or_lt os.length vs.length with hle | hlt
    · have hok := processBatch_ok os vs hne hle
      refine ⟨?_, ?_, fun _ _ => hok⟩
      · rw [hok]
        simp [hne]
      · rw [hok]
        simp [hne, not_lt.mpr hle]
    · have herr : processBatch os vs = BatchReply.serverError := by
        unfold processBatch
        rw [if_neg (by simpa using hne), batchLoop_error os vs [] [] hlt]
      refine ⟨?_, ?_, fun _ hle => absurd hlt (not_lt.mpr hle)⟩
      · rw [herr]
        simp [hne]
      · rw [herr]
        simp [hne, hlt]

/-- C8 witness: a one-item batch whose only item fails still yields the
aggregate reply, not a whole-call failure. -/
theorem c8_whole_batch_failure_only_malformed_witness :
    processBatch [ItemOutcome.fail] [{ name := "v".data }] =
      BatchReply.ok
        (batchSplit [ItemOutcome.fail] [{ name := "v".data }]).1.length 1
        (batchSplit [ItemOutcome.fail] [{ name := "v".data }]).1
        (batchSplit [ItemOutcome.fail] [{ name := "v".data }]).2 :=
  (c8_whole_batch_failure_only_malformed [ItemOutcome.fail]
    [{ name := "v".data }]).2.2 (by simp) (by simp)

/-- C4 (confirmed): per-item failures are isolated — every item lands in
either the successes or the errors list and the two lengths always sum to
the batch size; for a batch with exactly one failing item at any position,
the reply has `processed = M − 1`, `total = M`, one error entry, and that
entry's `originalName` is the failing item's submitted metadata name. -/
theorem c4_batch_item_isolation :
    (∀ (os : List ItemOutcome) (vs : List VideoMeta),
      os ≠ [] → os.length ≤ vs.length →
      processBatch os vs =
        BatchReply.ok (batchSplit os vs).1.length os.length
          (batchSplit os vs).1 (batchSplit os vs).2 ∧
      (batchSplit os vs).1.length + (batchSplit os vs).2.length = os.length) ∧
    (∀ (p : List VideoMeta) (v : VideoMeta) (s : List VideoMeta),
      processBatch
        (List.replicate p.length ItemOutcome.ok ++
          ItemOutcome.fail :: List.replicate s.length ItemOutcome.ok)
        (p ++ v :: s) =
      BatchReply.ok (p.length + s.length) (p.length + 1 + s.length)
        ((p ++ s).map fun m => { originalName := m.name, success := true })
        [{ originalName := v.name, success := false }]) := by
  constructor
  · intro os vs hne hle
    exact ⟨processBatch_ok os vs hne hle, batchSplit_count os vs hle⟩
  · intro p v s
    have hoslen :
        (List.replicate p.length ItemOutcome.ok ++
          ItemOutcome.fail :: List.replicate s.length ItemOutcome.ok).length =
        p.length + 1 + s.length := by
      simp
      omega
    have hvslen : (p ++ v :: s).length = p.length + 1 + s.length := by
      simp
      omega
    have hne : (List.replicate p.length ItemOutcome.ok ++
        ItemOutcome.fail :: List.replicate s.length ItemOutcome.ok) ≠ [] := by
      intro hcontra
      have := congrArg List.length hcontra
      rw [hoslen] at this
      simp at this
    rw [processBatch_ok _ _ hne (le_of_eq (hoslen.trans hvslen.symm)),
      batchSplit_one_fail p v s, hoslen]
    simp

/-- C4 witness: a three-item batch whose middle item fails: processed 2 of 3,
one error, tagged `v2`. -/
theorem c4_batch_item_isolation_witness :
    processBatch [ItemOutcome.ok, ItemOutcome.fail, ItemOutcome.ok]
      [{ name := "v1".data }, { name := "v2".data }, { name := "v3".data }] =
      BatchReply.ok 2 3
        [{ originalName := "v1".data, success := true },
         { originalName := "v3".data, success := true }]
        [{ originalName := "v2".data, success := false }] ∧
    processBatch [ItemOutcome.ok, ItemOutcome.fail, ItemOutcome.ok]
      [{ name := "v1".data }, { name := "v2".data }, { name := "v3".data }] =
      BatchReply.ok
        (batchSplit [ItemOutcome.ok, ItemOutcome.fail, ItemOutcome.ok]
          [{ name := "v1".data }, { name := "v2".data }, { name := "v3".data }]).1.length 3
        (batchSplit [ItemOutcome.ok, ItemOutcome.fail, ItemOutcome.ok]
          [{ name := "v1".data }, { name := "v2".data }, { name := "v3".data }]).1
        (batchSplit [ItemOutcome.ok, ItemOutcome.fail, ItemOutcome.ok]
          [{ name := "v1".data }, { name := "v2".data }, { name := "v3".data }]).2 :=
  ⟨c4_batch_item_isolation.2 [{ name := "v1".data }] { name := "v2".data }
    [{ name := "v3".data }],
   (c4_batch_item_isolation.1 [ItemOutcome.ok, ItemOutcome.fail, ItemOutcome.ok]
    [{ name := "v1".data }, { name := "v2".data }, { name := "v3".data }]
    (by simp) (by simp)).1⟩

/-- C1 counterexample: the §8 scenario-3 overlay `{startTime:18, endTime:25}`
compiled under effective duration 20 (> 0): the compiled filter's enable
window ends with `,25)'` — the overlay's raw end time — and not with
`,20)'`, although the claimed clamped window has
`endTime' = min(25, 20) = 20`; `createTextFilter` never clamps. -/
theorem c1_unclamped_window_counterexample :
    (0 : ℚ) < ((20 : ℕ) : ℚ) ∧
    min ((25 : ℕ) : ℚ) ((20 : ℕ) : ℚ) = ((20 : ℕ) : ℚ) ∧
    renderQ ((20 : ℕ) : ℚ) = "20".data ∧
    List.isSuffixOf ([','] ++ "25)".data ++ [qc])
      (createTextFilter ov1825 1920 1080) = true ∧
    List.isSuffixOf ([','] ++ "20)".data ++ [qc])
      (createTextFilter ov1825 1920 1080) = false := by
  refine ⟨by push_cast; norm_num,
    min_eq_right (by push_cast; norm_num),
    by rw [renderQ_natCast]; decide, ?_, ?_⟩
  · rw [compile_ov1825]
    decide
  · rw [compile_ov1825]
    decide

/-- C1 (corrected): the server compiler emits the overlay's own
`(startTime, endTime)` in the enable sub-expression, unclamped and
independent of any duration; the min-with-ε clamping exists only in the
editor (`App.tsx` `handleMaxDurationChange`, ε = 0.5, against the new
`maxDuration`), and that clamp preserves `startTime' < endTime'` whenever
the source overlay satisfies `startTime < endTime`. -/
theorem c1_enable_window_amended :
    ∀ (ov : TextOverlay) (w h d : ℚ),
      (∃ pre, createTextFilter ov w h = pre ++ enablePart ov) ∧
      enablePart ov = ":enable=".data ++ [qc] ++ "between(t,".data ++
        renderQ ov.startTime ++ [','] ++ renderQ ov.endTime ++ ")".data ++ [qc] ∧
      (clampOverlayTimes d ov).startTime = min ov.startTime (d - 1/2) ∧
      (clampOverlayTimes d ov).endTime = min ov.endTime d ∧
      (ov.startTime < ov.endTime →
        (clampOverlayTimes d ov).startTime < (clampOverlayTimes d ov).endTime) := by
  intro ov w h d
  refine ⟨⟨textPart ov ++ geomPart ov w h ++ outlinePart ov ++ fontFilePart ov,
    rfl⟩, rfl, rfl, rfl, ?_⟩
  intro hst
  show min ov.startTime (d - 1/2) < min ov.endTime d
  rcases le_or_lt ov.endTime d with h1 | h1
  · rw [min_eq_left h1]
    exact lt_of_le_of_lt (min_le_left _ _) hst
  · rw [min_eq_right (le_of_lt h1)]
    refine lt_of_le_of_lt (min_le_right _ _) ?_
    linarith

/-- C1 witness: the scenario-3 overlay under the 20-second limit keeps a
nonempty window after the editor clamp. -/
theorem c1_enable_window_amended_witness :
    (clampOverlayTimes 20 ov1825).startTime < (clampOverlayTimes 20 ov1825).endTime :=
  (c1_enable_window_amended ov1825 1920 1080 20).2.2.2.2
    (by show ((18 : ℕ) : ℚ) < ((25 : ℕ) : ℚ); push_cast; norm_num)

set_option maxRecDepth 8000 in
/-- C2 counterexample: the text consisting of a backslash followed by a
quote contains a quote, and every quote and colon in it is escaped by the
compiler, yet the escaped backslash-backslash-quote sequence closes the
quoted section early: under the modelled grammar the whole filter collapses
into a single parameter, so the text is not confined to the text parameter
and the draw-text primitive loses its positional parameters. -/
theorem c2_backslash_desync_counterexample :
    qc ∈ ovBadEsc.text ∧
    (splitG ':' (createTextFilter ovBadEsc 100 100) false).length = 1 ∧
    (splitG ':' (createTextFilter ovBadEsc 100 100) false).head? ≠
      some (textPart ovBadEsc) := by
  refine ⟨by decide, ?_, ?_⟩
  · rw [compile_ovBadEsc]
    decide
  · rw [compile_ovBadEsc]
    decide

/-- C2 (corrected): for overlays whose text is backslash-free (quotes,
colons and commas allowed) and whose colour, outline-colour and family
fields carry no grammar metacharacters, the compiled expression splits at
the top level into exactly the per-overlay draw-text primitives, each
primitive's first parameter is exactly `drawtext=text='…'` with the escaped
text between the quotes, and unescaping recovers the original text. -/
theorem c2_escaping_grammar_amended :
    ∀ (ovs : List TextOverlay) (w h : ℚ), ovs ≠ [] →
      (∀ ov ∈ ovs, benignOverlay ov) →
      splitG ',' (joinFilters ovs w h) false =
        ovs.map (fun ov => createTextFilter ov w h) ∧
      ∀ ov ∈ ovs,
        (splitG ':' (createTextFilter ov w h) false).head? = some (textPart ov) ∧
        textPart ov = "drawtext=text=".data ++ [qc] ++ escapeText ov.text ++ [qc] ∧
        unescape (escapeText ov.text) = ov.text := by
  intro ovs w h hne hb
  refine ⟨splitG_joinFilters ovs w h hne hb, ?_⟩
  intro ov hov
  obtain ⟨ht, _, _, _⟩ := hb ov hov
  refine ⟨createTextFilter_colon_head ov w h ht, rfl, ?_⟩
  rw [escapeText_eq_escapeAll]
  exact unescape_escapeAll ov.text ht

/-- C2 witness: a two-overlay batch whose first text contains a quote and a
colon splits into exactly its two primitives with the texts confined. -/
theorem c2_escaping_grammar_amended_witness :
    splitG ',' (joinFilters [ovQuote, ovHello] 1920 1080) false =
      List.map (fun ov => createTextFilter ov 1920 1080) [ovQuote, ovHello] ∧
    ∀ ov ∈ [ovQuote, ovHello],
      (splitG ':' (createTextFilter ov 1920 1080) false).head? =
        some (textPart ov) ∧
      textPart ov = "drawtext=text=".data ++ [qc] ++ escapeText ov.text ++ [qc] ∧
      unescape (escapeText ov.text) = ov.text :=
  c2_escaping_grammar_amended [ovQuote, ovHello] 1920 1080 (by simp) (by decide)
